import Mathlib

set_option maxRecDepth 4000

/-
Verification of the Tetris game engine in src/polished.py.

The data model and operations below are a shallow embedding of the classes
T_mo, Board and Game of polished.py.  GUI concerns (Qt widgets, painting,
sounds, key codes, score label text) are omitted; machine state that the
game rules read or write (cells, current piece, preview list, bag, score,
level, lines, timer interval, phase flags) is embedded faithfully.
Python ints are embedded as Int (coordinates) or Nat (counters); the float
expression 750 * 0.875 ** level is embedded over the rationals, where
0.875 = 7/8 is exactly representable (as it also is in binary floating
point).  The random shuffle in make_bag is modelled by an oracle
bags : Nat -> List T_mo, one list per make_bag call, constrained by the
hypothesis that every such list is a permutation of the unshuffled bag.
-/

/-- The eight shape names of class T_ShapeNames (an IntEnum in the source);
N is the non-shape used for empty cells. -/
inductive T_ShapeNames
  | N
  | O
  | I
  | T
  | L
  | J
  | S
  | Z
deriving DecidableEq

/-- The spawn-shape table T_Shapes: four (col,row) offsets per shape name. -/
def T_Shapes : T_ShapeNames → List (Int × Int)
  | .N => [(0,0),(0,0),(0,0),(0,0)]
  | .O => [(0,0),(1,0),(0,1),(1,1)]
  | .I => [(-2,0),(-1,0),(0,0),(1,0)]
  | .T => [(0,-1),(-1,0),(0,0),(1,0)]
  | .L => [(1,-1),(-1,0),(0,0),(1,0)]
  | .J => [(-1,-1),(-1,0),(0,0),(1,0)]
  | .S => [(1,-1),(0,-1),(0,0),(-1,0)]
  | .Z => [(-1,-1),(0,-1),(0,0),(1,0)]

/-- Class T_mo: a shape name and the current tuple of four (col,row) cell
offsets.  The t_color attribute is a QColor determined by t_name and is
display-only, so it is omitted. -/
structure T_mo where
  t_name : T_ShapeNames
  coords : List (Int × Int)
deriving DecidableEq

/-- T_mo.__init__: coords start from the T_Shapes table. -/
def T_mo.init (t_name : T_ShapeNames) : T_mo :=
  { t_name := t_name, coords := T_Shapes t_name }

/-- The global singleton empty piece NO_T_mo.  The source tests cell
emptiness by object identity (is NO_T_mo); since the game creates a T_mo
with name N nowhere else, value equality with NO_T_mo is the same test. -/
def NO_T_mo : T_mo := T_mo.init .N

/-- T_mo.c: the column offset of one of the four cells. -/
def T_mo.c (p : T_mo) (cell : Nat) : Int := (p.coords.getD cell (0,0)).1

/-- T_mo.r: the row offset of one of the four cells. -/
def T_mo.r (p : T_mo) (cell : Nat) : Int := (p.coords.getD cell (0,0)).2

/-- T_mo.rotateLeft: a new T_mo of the same name whose offsets are the
comprehension ((r,-c) for (c,r) in coords); the receiver is not changed. -/
def T_mo.rotateLeft (p : T_mo) : T_mo :=
  { T_mo.init p.t_name with coords := p.coords.map (fun cr => (cr.2, -cr.1)) }

/-- T_mo.rotateRight: a new T_mo of the same name whose offsets are the
comprehension ((-r,c) for (c,r) in coords). -/
def T_mo.rotateRight (p : T_mo) : T_mo :=
  { T_mo.init p.t_name with coords := p.coords.map (fun cr => (-cr.2, cr.1)) }

/-- Class Board: dimensions, the row-major cell list, and the current-piece
slots _current, _row, _col.  Qt layout attributes are omitted. -/
structure Board where
  rows : Nat
  cols : Nat
  size : Nat
  cells : List T_mo
  _current : T_mo
  _row : Int
  _col : Int
deriving DecidableEq

/-- Result code Board.OK. -/
def Board.OK : Nat := 0

/-- Result code Board.TOUCH. -/
def Board.TOUCH : Nat := 1

/-- Result code Board.LEFT. -/
def Board.LEFT : Nat := 2

/-- Result code Board.RIGHT. -/
def Board.RIGHT : Nat := 3

/-- Board.clear: reset the current-piece slots and set every one of the
size = rows*columns cells to NO_T_mo.  The forced paint event is GUI. -/
def Board.clear (b : Board) : Board :=
  { b with _current := NO_T_mo, _col := 0, _row := 0,
           cells := List.replicate b.size NO_T_mo }

/-- Board.__init__ for a rows x columns board: size is rows*columns and the
cells are populated by clear(). -/
def Board.init (rows columns : Nat) : Board :=
  Board.clear
    { rows := rows, cols := columns, size := rows * columns, cells := [],
      _current := NO_T_mo, _row := 0, _col := 0 }

/-- Board.currentPiece accessor. -/
def Board.currentPiece (b : Board) : T_mo := b._current

/-- Board.currentColumn accessor. -/
def Board.currentColumn (b : Board) : Int := b._col

/-- Board.currentRow accessor. -/
def Board.currentRow (b : Board) : Int := b._row

/-- Board.shapeInCell: the T_mo at cells[row*cols + col].  The source
indexes a Python list; all in-game calls are bounds-checked first, and the
out-of-range default NO_T_mo is never consulted on those calls. -/
def Board.shapeInCell (b : Board) (row col : Int) : T_mo :=
  b.cells.getD (row * b.cols + col).toNat NO_T_mo

/-- Board.setCell: write a T_mo at cells[row*cols + col]. -/
def Board.setCell (b : Board) (row col : Int) (shape : T_mo) : Board :=
  { b with cells := b.cells.set (row * b.cols + col).toNat shape }

/-- The loop body of Board.testAndPlace: walk the cell indices in order;
for each, test the left wall, then the right wall, then the top/bottom
bounds and cell occupancy; report the first failure, none if all pass.
The loop locals r = new_row + piece.r(i) and c = new_col + piece.c(i)
are written inline. -/
def Board.tapLoop (b : Board) (p : T_mo) (nr nc : Int) : List Nat → Option Nat
  | [] => none
  | i :: rest =>
    if nc + T_mo.c p i < 0 then some Board.LEFT
    else if (b.cols : Int) ≤ nc + T_mo.c p i then some Board.RIGHT
    else if nr + T_mo.r p i < 0 ∨ (b.rows : Int) ≤ nr + T_mo.r p i ∨
        Board.shapeInCell b (nr + T_mo.r p i) (nc + T_mo.c p i) ≠ NO_T_mo then
      some Board.TOUCH
    else Board.tapLoop b p nr nc rest

/-- Board.testAndPlace: run the loop over range(4); if no cell fails,
record the piece and position as current and answer Board.OK.  The
repaint() call is GUI.  The pair is (result code, board afterwards). -/
def Board.testAndPlace (b : Board) (new_piece : T_mo) (new_row new_col : Int) :
    Nat × Board :=
  match Board.tapLoop b new_piece new_row new_col (List.range 4) with
  | some res => (res, b)
  | none =>
    (Board.OK, { b with _current := new_piece, _row := new_row, _col := new_col })

/-- Board.plant: write the current piece name into the four cells it
covers. -/
def Board.plant (b : Board) : Board :=
  b._current.coords.foldl
    (fun bb cr => Board.setCell bb (cr.2 + b._row) (cr.1 + b._col) b._current) b

/-- Python range(0, stop, step) for positive step. -/
def pyRange (stop step : Nat) : List Nat :=
  if step = 0 then [] else (List.range ((stop + step - 1) / step)).map (· * step)

/-- Python cells[row:row+cols]. -/
def rowSlice (cells : List T_mo) (row cols : Nat) : List T_mo :=
  (cells.drop row).take cols

/-- The first loop of Board.winnow: the start indices (in row-major cell
numbering) of the rows that contain no NO_T_mo cell. -/
def fullRowStarts (cols : Nat) (cells : List T_mo) : List Nat :=
  (pyRange cells.length cols).filter
    (fun row => !((rowSlice cells row cols).contains NO_T_mo))

/-- Python del cells[row:row+cols]. -/
def delSlice (cells : List T_mo) (row cols : Nat) : List T_mo :=
  cells.take row ++ cells.drop (row + cols)

/-- The cell-list transformation of Board.winnow: find the full rows,
delete them from last to first, prepend an equal number of empty rows;
answer the new cell list and the count of rows removed. -/
def winnowCells (cols : Nat) (cells : List T_mo) : List T_mo × Nat :=
  let full_rows := fullRowStarts cols cells
  if full_rows.isEmpty then (cells, full_rows.length)
  else
    (List.replicate (full_rows.length * cols) NO_T_mo ++
       full_rows.reverse.foldl (fun cs row => delSlice cs row cols) cells,
     full_rows.length)

/-- Board.winnow: apply the transformation to this board. -/
def Board.winnow (b : Board) : Board × Nat :=
  let res := winnowCells b.cols b.cells
  ({ b with cells := res.1 }, res.2)

/-- A row is full when it contains no NO_T_mo cell; this is the test that
winnow applies to each cells[row:row+cols] slice. -/
def rowIsFull (r : List T_mo) : Bool := !(r.contains NO_T_mo)

/-- The row-major cell list cut into its rows of cols cells each. -/
def chunksOf (cols : Nat) (l : List T_mo) : List (List T_mo) :=
  if h : cols = 0 ∨ l = [] then [] else l.take cols :: chunksOf cols (l.drop cols)
termination_by l.length
decreasing_by
  simp only [not_or] at h
  simp only [List.length_drop]
  have hl : 0 < l.length := List.length_pos.mpr h.2
  omega

/-- Game.StartingSpeed: initial game-step time in milliseconds. -/
def Game.StartingSpeed : Nat := 750

/-- Game.LinesPerLevel: lines to a level change. -/
def Game.LinesPerLevel : Nat := 10

/-- Game.TimeFactor: the per-level time reduction factor 0.875, an exact
binary (and rational) value. -/
def Game.TimeFactor : ℚ := 0.875

/-- The shape name with a given IntEnum value, as in T_ShapeNames(v). -/
def T_ShapeNames.ofVal : Nat → T_ShapeNames
  | 1 => .O
  | 2 => .I
  | 3 => .T
  | 4 => .L
  | 5 => .J
  | 6 => .S
  | 7 => .Z
  | _ => .N

/-- The bag contents built by Game.make_bag before random.shuffle is
applied: one T_mo for each of T_ShapeNames(1) .. T_ShapeNames(7). -/
def Game.make_bag_base : List T_mo :=
  (List.range' 1 7).map (fun v => T_mo.init (T_ShapeNames.ofVal v))

/-- The scoring tuple (100,300,500,800) of Game.oneLineDown. -/
def Game.scoreTable : List Nat := [100, 300, 500, 800]

/-- The Game state: the main board, the held-piece display board, and the
counters and flags of class Game.  Qt widgets, labels, sounds and the
high score are omitted.  bag_index points at the next unconsumed output
of the shuffle oracle; each make_bag call consumes one output. -/
structure GameState where
  board : Board
  held_display : Board
  timeStep : Nat
  lines_cleared : Nat
  current_level : Nat
  current_score : Nat
  waitForNextTimer : Bool
  isStarted : Bool
  isPaused : Bool
  isOver : Bool
  preview_list : List T_mo
  bag_of_pieces : List T_mo
  bag_index : Nat
deriving DecidableEq

/-- Game.clear: stop and reset everything; make a fresh bag, move its
first five pieces into the preview list and keep the rest as the bag.
The timer, sounds and label updates are GUI. -/
def Game.clear (bags : Nat → List T_mo) (gs : GameState) : GameState :=
  { gs with
    board := Board.clear gs.board,
    isStarted := false, isPaused := false, isOver := false,
    timeStep := Game.StartingSpeed,
    current_level := 0,
    current_score := 0,
    lines_cleared := 0,
    held_display := Board.clear gs.held_display,
    preview_list := (bags gs.bag_index).take 5,
    bag_of_pieces := (bags gs.bag_index).drop 5,
    bag_index := gs.bag_index + 1,
    waitForNextTimer := gs.waitForNextTimer }

/-- A freshly constructed and cleared Game: main board 22 x 10, held
display 5 x 5, shuffle oracle not yet consumed. -/
def Game.initState (bags : Nat → List T_mo) : GameState :=
  Game.clear bags
    { board := Board.init 22 10, held_display := Board.init 5 5,
      timeStep := Game.StartingSpeed, lines_cleared := 0, current_level := 0,
      current_score := 0, waitForNextTimer := false, isStarted := false,
      isPaused := false, isOver := false, preview_list := [],
      bag_of_pieces := [], bag_index := 0 }

/-- Game.nextPiece: pop the head of the preview list as the piece to
return; refill the bag by make_bag if it is empty; append the piece
popped from the tail end of the bag to the preview list.  The refresh of
the preview display board is GUI. -/
def Game.nextPiece (bags : Nat → List T_mo) (gs : GameState) : T_mo × GameState :=
  let next_piece := gs.preview_list.headD NO_T_mo
  let rest := gs.preview_list.tail
  let bag_idx :=
    if gs.bag_of_pieces.isEmpty then (bags gs.bag_index, gs.bag_index + 1)
    else (gs.bag_of_pieces, gs.bag_index)
  (next_piece,
   { gs with preview_list := rest ++ [bag_idx.1.getLastD NO_T_mo],
             bag_of_pieces := bag_idx.1.dropLast,
             bag_index := bag_idx.2 })

/-- The Game state after n calls of nextPiece on a freshly cleared game. -/
def Game.supplyAfter (bags : Nat → List T_mo) : Nat → GameState
  | 0 => Game.initState bags
  | n + 1 => (Game.nextPiece bags (Game.supplyAfter bags n)).2

/-- The first n pieces delivered by nextPiece on a freshly cleared game. -/
def Game.delivered (bags : Nat → List T_mo) : Nat → List T_mo
  | 0 => []
  | n + 1 =>
    Game.delivered bags n ++ [(Game.nextPiece bags (Game.supplyAfter bags n)).1]

/-- Game.oneLineDown: try the current piece one row down at the same
column.  On OK the piece has moved.  Otherwise plant it, winnow, and if
any rows were cleared update the line count, then the level, then the
score from the (100,300,500,800) table times (1 + level), then the timer
interval max(20, int(750 * 0.875 ** level)).  Sounds and labels are GUI. -/
def Game.oneLineDown (gs : GameState) : Bool × GameState :=
  let tp := Board.testAndPlace gs.board (Board.currentPiece gs.board)
      (Board.currentRow gs.board + 1) (Board.currentColumn gs.board)
  if tp.1 = Board.OK then (true, { gs with board := tp.2 })
  else
    let w := Board.winnow (Board.plant gs.board)
    let gs1 := { gs with waitForNextTimer := true, board := w.1 }
    if w.2 ≠ 0 then
      let lines := gs1.lines_cleared + w.2
      let level := lines / Game.LinesPerLevel
      (false,
       { gs1 with
         lines_cleared := lines,
         current_level := level,
         current_score :=
           gs1.current_score + (1 + level) * Game.scoreTable.getD (w.2 - 1) 0,
         timeStep :=
           max 20 (Int.toNat (Int.floor
             ((Game.StartingSpeed : ℚ) * Game.TimeFactor ^ level))) })
    else (false, gs1)

/-- The soft-drop branch of Game.keyPressEvent: when the game is started
and a current piece exists, call oneLineDown and then add 1 to the score
unconditionally. -/
def Game.softDropKey (gs : GameState) : GameState :=
  if gs.isStarted = true ∧ Board.currentPiece gs.board ≠ NO_T_mo then
    let r := Game.oneLineDown gs
    { r.2 with current_score := r.2.current_score + 1 }
  else gs

/-- Game.holdCurrentPiece: the piece to swap in is the held piece, or the
next piece via nextPiece when none is held yet (this already advances the
preview list and the bag).  Test it at the current piece position; on OK
install it there and record the swapped-out piece as the current piece of
the held display board (at row 2, column 2); otherwise change nothing
further. -/
def Game.holdCurrentPiece (bags : Nat → List T_mo) (gs : GameState) : GameState :=
  let swap_st :=
    if Board.currentPiece gs.held_display = NO_T_mo then Game.nextPiece bags gs
    else (Board.currentPiece gs.held_display, gs)
  let piece_to_hold := Board.currentPiece swap_st.2.board
  let tp := Board.testAndPlace swap_st.2.board swap_st.1
      (Board.currentRow swap_st.2.board) (Board.currentColumn swap_st.2.board)
  if tp.1 = Board.OK then
    { swap_st.2 with
      board := tp.2,
      held_display := (Board.testAndPlace swap_st.2.held_display piece_to_hold 2 2).2 }
  else swap_st.2

/-- A 22 x 10 board whose bottom row is occupied except at columns 4 and
5, with the current piece an O sitting at row 20, column 4, so that it
covers exactly those two gaps and the two cells above them. -/
def boardGap : Board :=
  { rows := 22, cols := 10, size := 220,
    cells := (List.range 220).map
      (fun i => if 210 ≤ i ∧ i ≠ 214 ∧ i ≠ 215 then T_mo.init .O else NO_T_mo),
    _current := T_mo.init .O, _row := 20, _col := 4 }

/-- A game over boardGap with 9 lines already cleared at level 0. -/
def gsNine : GameState :=
  { board := boardGap, held_display := Board.init 5 5,
    timeStep := Game.StartingSpeed, lines_cleared := 9, current_level := 0,
    current_score := 0, waitForNextTimer := false, isStarted := true,
    isPaused := false, isOver := false, preview_list := [],
    bag_of_pieces := [], bag_index := 0 }

/-- The same game with no lines cleared yet. -/
def gsZero : GameState := { gsNine with lines_cleared := 0 }

/-- A game in which the current O piece is free to fall. -/
def gsFree : GameState :=
  { gsNine with
    lines_cleared := 0,
    board := { Board.init 22 10 with _current := T_mo.init .O, _row := 1, _col := 4 } }

/-- A 22 x 10 board with one occupied cell at row 20, column 2, and the
current piece an O at row 20, column 4. -/
def boardBlock : Board :=
  { rows := 22, cols := 10, size := 220,
    cells := (List.range 220).map
      (fun i => if i = 202 then T_mo.init .O else NO_T_mo),
    _current := T_mo.init .O, _row := 20, _col := 4 }

/-- A game over boardBlock with no held piece, an I piece at the head of
the preview list, and a two-piece bag. -/
def gsHold : GameState :=
  { board := boardBlock, held_display := Board.init 5 5,
    timeStep := Game.StartingSpeed, lines_cleared := 0, current_level := 0,
    current_score := 0, waitForNextTimer := false, isStarted := true,
    isPaused := false, isOver := false,
    preview_list :=
      [T_mo.init .I, T_mo.init .O, T_mo.init .O, T_mo.init .O, T_mo.init .O],
    bag_of_pieces := [T_mo.init .Z, T_mo.init .S], bag_index := 1 }

/-- A shuffle oracle that never shuffles. -/
def bagsId : Nat → List T_mo := fun _ => Game.make_bag_base

/-- The first seven pieces a freshly cleared game delivers: the five
preview seeds in order, then the tail of the first bag popped from its
far end. -/
def windowZero (bags : Nat → List T_mo) : List T_mo :=
  (bags 0).take 5 ++ ((bags 0).drop 5).reverse

/-- The delivery stream up to the end of bag k-1 (k >= 1): the first
window, then each later bag in reverse (pieces are popped from the tail
end of the bag). -/
def bagStream (bags : Nat → List T_mo) (k : Nat) : List T_mo :=
  windowZero bags ++
    ((List.range (k - 1)).map (fun i => (bags (i + 1)).reverse)).flatten

/-- Cell i of piece p proposed at (nr,nc) passes every check of the
testAndPlace loop: inside the left and right walls, inside the top and
bottom, and over an empty cell. -/
def cellPasses (b : Board) (p : T_mo) (nr nc : Int) (i : Nat) : Prop :=
  0 ≤ nc + T_mo.c p i ∧ nc + T_mo.c p i < (b.cols : Int) ∧
  0 ≤ nr + T_mo.r p i ∧ nr + T_mo.r p i < (b.rows : Int) ∧
  Board.shapeInCell b (nr + T_mo.r p i) (nc + T_mo.c p i) = NO_T_mo

/-- A 10-cell row with one empty cell, hence not full. -/
def rowEmptyish : List T_mo := NO_T_mo :: List.replicate 9 (T_mo.init .O)

/-- A completely occupied 10-cell row. -/
def rowFullO : List T_mo := List.replicate 10 (T_mo.init .O)

/-- A 22 x 10 board whose rows 3 and 7 are full and whose other rows each
have an empty first cell. -/
def bRows37 : Board :=
  { rows := 22, cols := 10, size := 220,
    cells :=
      ([rowEmptyish, rowEmptyish, rowEmptyish, rowFullO,
        rowEmptyish, rowEmptyish, rowEmptyish, rowFullO,
        rowEmptyish, rowEmptyish, rowEmptyish, rowEmptyish,
        rowEmptyish, rowEmptyish, rowEmptyish, rowEmptyish,
        rowEmptyish, rowEmptyish, rowEmptyish, rowEmptyish,
        rowEmptyish, rowEmptyish] : List (List T_mo)).flatten,
    _current := NO_T_mo, _row := 0, _col := 0 }

/-- A 2 x 2 board whose bottom row is full. -/
def bTwo : Board :=
  { rows := 2, cols := 2, size := 4,
    cells := [NO_T_mo, T_mo.init .O, T_mo.init .O, T_mo.init .O],
    _current := NO_T_mo, _row := 0, _col := 0 }


/-- Splitting a filtered list by a predicate preserves total length. -/
theorem length_filter_partition {α : Type} (p : α → Bool) (l : List α) :
    (l.filter p).length + (l.filter (fun x => !p x)).length = l.length := by
  induction l with
  | nil => rfl
  | cons a l ih =>
    by_cases h : p a <;> simp [List.filter_cons, h, ← ih] <;> omega

/-- Lists whose members all have length cols flatten to length count*cols. -/
theorem flatten_length_const {cols : Nat} :
    ∀ (rs : List (List T_mo)), (∀ r ∈ rs, r.length = cols) →
      rs.flatten.length = rs.length * cols := by
  intro rs
  induction rs with
  | nil => intro _; simp
  | cons r rs ih =>
    intro h
    simp only [List.flatten_cons, List.length_append, List.length_cons,
      h r (by simp), ih (fun x hx => h x (by simp [hx]))]
    ring

theorem pyRange_zero (step : Nat) : pyRange 0 step = [] := by
  unfold pyRange
  rcases Nat.eq_zero_or_pos step with h | h
  · simp [h]
  · have hne : ¬ step = 0 := by omega
    have hdiv : (0 + step - 1) / step = 0 := Nat.div_eq_of_lt (by omega)
    rw [if_neg hne, hdiv]
    rfl

theorem pyRange_add (L cols : Nat) (hc : 0 < cols) :
    pyRange (cols + L) cols = 0 :: (pyRange L cols).map (· + cols) := by
  unfold pyRange
  have hne : ¬ cols = 0 := by omega
  have harith : cols + L + cols - 1 = (L + cols - 1) + cols := by omega
  rw [if_neg hne, if_neg hne, harith, Nat.add_div_right _ hc,
    List.range_succ_eq_map]
  simp only [List.map_cons, Nat.zero_mul, List.map_map]
  congr 1
  apply List.map_congr_left
  intro i _
  simp only [Function.comp_apply]
  rw [Nat.succ_mul]

theorem rowSlice_zero {cols : Nat} (r J : List T_mo) (hr : r.length = cols) :
    rowSlice (r ++ J) 0 cols = r := by
  simp only [rowSlice, List.drop_zero, ← hr, List.take_left]

theorem rowSlice_shift {cols : Nat} (r J : List T_mo) (hr : r.length = cols)
    (s : Nat) : rowSlice (r ++ J) (s + cols) cols = rowSlice J s cols := by
  simp only [rowSlice]
  rw [show s + cols = r.length + s by omega, List.drop_append]

/-- Over a cell list that is one row followed by the rest, the full-row
scan finds the first row when it is full, and the full rows of the rest
shifted by one row of cells. -/
theorem fullRowStarts_cons {cols : Nat} (hc : 0 < cols) (r J : List T_mo)
    (hr : r.length = cols) :
    fullRowStarts cols (r ++ J) =
      (if rowIsFull r then [0] else []) ++ (fullRowStarts cols J).map (· + cols) := by
  unfold fullRowStarts
  have hlen : (r ++ J).length = cols + J.length := by
    simp [List.length_append, hr]
  rw [hlen, pyRange_add _ _ hc, List.filter_cons, List.filter_map]
  have hp0 : (!((rowSlice (r ++ J) 0 cols).contains NO_T_mo)) = rowIsFull r := by
    rw [rowSlice_zero r J hr]; rfl
  have hcomp :
      ((fun row => !((rowSlice (r ++ J) row cols).contains NO_T_mo)) ∘ (· + cols))
        = (fun row => !((rowSlice J row cols).contains NO_T_mo)) := by
    funext s
    simp only [Function.comp_apply]
    rw [rowSlice_shift r J hr s]
  rw [hcomp, hp0]
  by_cases hf : rowIsFull r = true <;> simp [hf]

theorem delSlice_shift {cols : Nat} (r : List T_mo) (hr : r.length = cols)
    (J : List T_mo) (s : Nat) :
    delSlice (r ++ J) (s + cols) cols = r ++ delSlice J s cols := by
  unfold delSlice
  rw [show s + cols = r.length + s by omega, List.take_append,
    show r.length + s + cols = r.length + (s + cols) by omega, List.drop_append,
    List.append_assoc, hr, Nat.add_comm s cols]

theorem foldl_delSlice_shift {cols : Nat} (r : List T_mo) (hr : r.length = cols) :
    ∀ (l : List Nat) (J : List T_mo),
      (l.map (· + cols)).foldl (fun cs row => delSlice cs row cols) (r ++ J)
        = r ++ l.foldl (fun cs row => delSlice cs row cols) J := by
  intro l
  induction l with
  | nil => intro J; rfl
  | cons s l ih =>
    intro J
    simp only [List.map_cons, List.foldl_cons]
    rw [delSlice_shift r hr J s, ih]

/-- Winnow components over a cell list assembled from rows of cols cells:
the full-row scan finds one start index per full row, and deleting those
slices from last to first leaves exactly the non-full rows in order. -/
theorem winnow_components {cols : Nat} (hc : 0 < cols) :
    ∀ (rs : List (List T_mo)), (∀ r ∈ rs, r.length = cols) →
      (fullRowStarts cols rs.flatten).length = (rs.filter rowIsFull).length ∧
      (fullRowStarts cols rs.flatten).reverse.foldl
          (fun cs row => delSlice cs row cols) rs.flatten
        = (rs.filter (fun r => !(rowIsFull r))).flatten := by
  intro rs
  induction rs with
  | nil =>
    intro _
    constructor
    · simp [fullRowStarts, pyRange_zero]
    · simp [fullRowStarts, pyRange_zero]
  | cons r rs ih =>
    intro h
    have hr : r.length = cols := h r (by simp)
    have hrs : ∀ x ∈ rs, x.length = cols := fun x hx => h x (by simp [hx])
    obtain ⟨ih1, ih2⟩ := ih hrs
    have hstarts := fullRowStarts_cons hc r rs.flatten hr
    constructor
    · rw [List.flatten_cons, hstarts, List.length_append, List.length_map, ih1,
        List.filter_cons]
      by_cases hf : rowIsFull r = true <;> simp [hf] <;> omega
    · rw [List.flatten_cons, hstarts, List.reverse_append, List.foldl_append,
        ← List.map_reverse, foldl_delSlice_shift r hr _ rs.flatten, ih2]
      by_cases hf : rowIsFull r = true
      · rw [if_pos hf]
        simp only [List.reverse_cons, List.reverse_nil, List.nil_append,
          List.foldl_cons, List.foldl_nil]
        unfold delSlice
        rw [List.take_zero, Nat.zero_add,
          show cols = r.length from hr.symm, List.drop_left, List.nil_append,
          List.filter_cons_of_neg (by simp [hf])]
      · rw [if_neg hf]
        simp only [List.reverse_nil, List.foldl_nil]
        rw [List.filter_cons_of_pos (by simp [hf]), List.flatten_cons]

/-- winnow over a cell list assembled from rows of cols cells each:
the result is one blank row per full row prepended to the non-full rows
in their original order, and the count of full rows. -/
theorem winnowCells_flatten {cols : Nat} (hc : 0 < cols)
    (rs : List (List T_mo)) (hlen : ∀ r ∈ rs, r.length = cols) :
    winnowCells cols rs.flatten =
      (List.replicate ((rs.filter rowIsFull).length * cols) NO_T_mo ++
         (rs.filter (fun r => !(rowIsFull r))).flatten,
       (rs.filter rowIsFull).length) := by
  obtain ⟨h1, h2⟩ := winnow_components hc rs hlen
  unfold winnowCells
  by_cases hs : (fullRowStarts cols rs.flatten).isEmpty = true
  · have hnil : fullRowStarts cols rs.flatten = [] := by
      simpa [List.isEmpty_iff] using hs
    rw [hnil] at h1
    have hful : (rs.filter rowIsFull).length = 0 := by simpa using h1.symm
    have hfulnil : rs.filter rowIsFull = [] := List.length_eq_zero.mp hful
    have hall : ∀ r ∈ rs, ¬ (rowIsFull r = true) := by
      intro r hrmem
      exact (List.filter_eq_nil_iff.mp hfulnil) r hrmem
    have hkeep : rs.filter (fun r => !(rowIsFull r)) = rs := by
      apply List.filter_eq_self.mpr
      intro a ha
      simpa using hall a ha
    simp [hs, hnil, hful, hkeep]
  · have hsf : (fullRowStarts cols rs.flatten).isEmpty = false := by
      simpa using hs
    simp only [hsf, Bool.false_eq_true, if_false, h1, h2]

theorem chunksOf_flatten_aux {cols : Nat} (hc : 0 < cols) :
    ∀ (n : Nat) (l : List T_mo), l.length ≤ n → (chunksOf cols l).flatten = l := by
  intro n
  induction n with
  | zero =>
    intro l hl
    have hnil : l = [] := List.eq_nil_of_length_eq_zero (by omega)
    rw [hnil, chunksOf]
    simp
  | succ n ih =>
    intro l hl
    rw [chunksOf]
    by_cases he : l = []
    · simp [he]
    · have hcond : ¬ (cols = 0 ∨ l = []) := by
        push_neg
        exact ⟨by omega, he⟩
      have hlp : 0 < l.length := List.length_pos.mpr he
      rw [dif_neg hcond, List.flatten_cons,
        ih (l.drop cols) (by simp only [List.length_drop]; omega)]
      exact List.take_append_drop cols l

theorem chunksOf_flatten {cols : Nat} (hc : 0 < cols) (l : List T_mo) :
    (chunksOf cols l).flatten = l :=
  chunksOf_flatten_aux hc l.length l le_rfl

theorem chunksOf_mem_length_aux {cols : Nat} (hc : 0 < cols) :
    ∀ (n : Nat) (l : List T_mo), l.length ≤ n → cols ∣ l.length →
      ∀ r ∈ chunksOf cols l, r.length = cols := by
  intro n
  induction n with
  | zero =>
    intro l hl _ r hr
    have hnil : l = [] := List.eq_nil_of_length_eq_zero (by omega)
    rw [hnil, chunksOf] at hr
    simp at hr
  | succ n ih =>
    intro l hl hdvd r hr
    rw [chunksOf] at hr
    by_cases he : l = []
    · simp [he] at hr
    · have hcond : ¬ (cols = 0 ∨ l = []) := by
        push_neg
        exact ⟨by omega, he⟩
      have hlp : 0 < l.length := List.length_pos.mpr he
      obtain ⟨k, hk⟩ := hdvd
      have hkpos : 0 < k := by
        rcases Nat.eq_zero_or_pos k with h0 | h0
        · subst h0
          rw [Nat.mul_zero] at hk
          omega
        · exact h0
      have hcl : cols ≤ l.length := by
        rw [hk]
        calc cols = cols * 1 := by omega
        _ ≤ cols * k := Nat.mul_le_mul_left cols hkpos
      rw [dif_neg hcond] at hr
      rcases List.mem_cons.mp hr with h | h
      · rw [h, List.length_take]
        omega
      · refine ih (l.drop cols) (by simp only [List.length_drop]; omega) ?_ r h
        obtain ⟨m, rfl⟩ : ∃ m, k = m + 1 := ⟨k - 1, by omega⟩
        refine ⟨m, ?_⟩
        simp only [List.length_drop]
        rw [hk, Nat.mul_succ]
        omega

theorem chunksOf_mem_length {cols : Nat} (hc : 0 < cols) (l : List T_mo)
    (hdvd : cols ∣ l.length) : ∀ r ∈ chunksOf cols l, r.length = cols :=
  chunksOf_mem_length_aux hc l.length l le_rfl hdvd

theorem chunksOf_length {cols : Nat} (hc : 0 < cols) :
    ∀ (k : Nat) (l : List T_mo), l.length = k * cols →
      (chunksOf cols l).length = k := by
  intro k
  induction k with
  | zero =>
    intro l hl
    have hnil : l = [] := List.eq_nil_of_length_eq_zero (by omega)
    rw [hnil, chunksOf]
    simp
  | succ k ih =>
    intro l hl
    have hlp : 0 < l.length := by
      rw [hl]
      exact Nat.mul_pos (Nat.succ_pos k) hc
    have he : l ≠ [] := by
      intro h
      rw [h] at hlp
      simp at hlp
    rw [chunksOf, dif_neg (by push_neg; exact ⟨by omega, he⟩), List.length_cons,
      ih (l.drop cols) (by simp only [List.length_drop]; rw [hl]; rw [Nat.succ_mul]; omega)]

/-- Unfolding equation for one step of the testAndPlace loop. -/
theorem tapLoop_cons (b : Board) (p : T_mo) (nr nc : Int) (i : Nat)
    (rest : List Nat) :
    Board.tapLoop b p nr nc (i :: rest) =
      (if nc + T_mo.c p i < 0 then some Board.LEFT
       else if (b.cols : Int) ≤ nc + T_mo.c p i then some Board.RIGHT
       else if nr + T_mo.r p i < 0 ∨ (b.rows : Int) ≤ nr + T_mo.r p i ∨
           Board.shapeInCell b (nr + T_mo.r p i) (nc + T_mo.c p i) ≠ NO_T_mo then
         some Board.TOUCH
       else Board.tapLoop b p nr nc rest) := rfl

/-- A failure reported by the testAndPlace loop is never the OK code. -/
theorem tapLoop_ne_ok (b : Board) (p : T_mo) (nr nc : Int) :
    ∀ (l : List Nat) (res : Nat),
      Board.tapLoop b p nr nc l = some res → res ≠ Board.OK := by
  intro l
  induction l with
  | nil =>
    intro res h
    simp [Board.tapLoop] at h
  | cons i rest ih =>
    intro res h
    rw [tapLoop_cons] at h
    split at h
    · injection h with h2
      subst h2
      decide
    · split at h
      · injection h with h2
        subst h2
        decide
      · split at h
        · injection h with h2
          subst h2
          decide
        · exact ih res h

/-- A cell that passes all checks is skipped by the testAndPlace loop. -/
theorem tapLoop_pass_cons (b : Board) (p : T_mo) (nr nc : Int) (j : Nat)
    (rest : List Nat) (hj : cellPasses b p nr nc j) :
    Board.tapLoop b p nr nc (j :: rest) = Board.tapLoop b p nr nc rest := by
  obtain ⟨h1, h2, h3, h4, h5⟩ := hj
  rw [tapLoop_cons, if_neg (by omega), if_neg (by omega),
    if_neg (by simp only [not_or, not_lt, not_le, ne_eq, not_not]
               exact ⟨by omega, by omega, h5⟩)]

/-- When every earlier cell passes and cell i sticks out past the left
wall, the loop reports LEFT, whatever the later cells are. -/
theorem tapLoop_left_at (b : Board) (p : T_mo) (nr nc : Int) (i : Nat)
    (l2 : List Nat) :
    ∀ l1 : List Nat, (∀ j ∈ l1, cellPasses b p nr nc j) →
      nc + T_mo.c p i < 0 →
      Board.tapLoop b p nr nc (l1 ++ i :: l2) = some Board.LEFT := by
  intro l1
  induction l1 with
  | nil =>
    intro _ hci
    rw [List.nil_append, tapLoop_cons, if_pos hci]
  | cons j l1 ih =>
    intro hall hci
    rw [List.cons_append, tapLoop_pass_cons b p nr nc j _ (hall j (by simp))]
    exact ih (fun x hx => hall x (by simp [hx])) hci

/-- Claim C1 (amended): testAndPlace walks the four cells in index order
and, within each cell, checks the left wall before the right wall before
the top/bottom/occupancy checks, returning the first failure found; hence
whenever every cell before index i passes all checks and cell i lies past
the left wall, the result is LEFT, even if cell i is also above the top. -/
theorem C1_amended_left_precedence (b : Board) (p : T_mo) (nr nc : Int)
    (i : Nat) (hi : i < 4) (hprev : ∀ j, j < i → cellPasses b p nr nc j)
    (hleft : nc + T_mo.c p i < 0) :
    (Board.testAndPlace b p nr nc).1 = Board.LEFT := by
  unfold Board.testAndPlace
  have hrange : List.range 4 = [0, 1, 2, 3] := rfl
  have h : Board.tapLoop b p nr nc (List.range 4) = some Board.LEFT := by
    rw [hrange]
    interval_cases i
    · exact tapLoop_left_at b p nr nc 0 [1, 2, 3] [] (by simp) hleft
    · exact tapLoop_left_at b p nr nc 1 [2, 3] [0]
        (by intro j hj
            simp only [List.mem_singleton] at hj
            subst hj
            exact hprev 0 (by omega)) hleft
    · exact tapLoop_left_at b p nr nc 2 [3] [0, 1]
        (by intro j hj
            simp only [List.mem_cons, List.mem_singleton] at hj
            rcases hj with h0 | h1
            · subst h0; exact hprev 0 (by omega)
            · rcases h1 with h1 | hF
              · subst h1; exact hprev 1 (by omega)
              · simp at hF) hleft
    · exact tapLoop_left_at b p nr nc 3 [] [0, 1, 2]
        (by intro j hj
            simp only [List.mem_cons, List.mem_singleton] at hj
            rcases hj with h0 | h1 | h2 | hF
            · subst h0; exact hprev 0 (by omega)
            · subst h1; exact hprev 1 (by omega)
            · subst h2; exact hprev 2 (by omega)
            · simp at hF) hleft
  rw [h]

/-- Claim C1 counterexample: the S piece proposed at row 0, column 0 of an
empty 22 x 10 board has leftmost cell column -1 and topmost cell row -1,
yet testAndPlace returns TOUCH (its first cell, at column 1 and row -1, is
checked before the leftmost cell) - not LEFT as the claim requires. -/
theorem C1_counterexample :
    (Board.testAndPlace (Board.init 22 10) (T_mo.init .S) 0 0).1 = Board.TOUCH ∧
    ((T_mo.init .S).coords.map Prod.fst).minimum? = some (-1) ∧
    ((T_mo.init .S).coords.map Prod.snd).minimum? = some (-1) ∧
    Board.TOUCH ≠ Board.LEFT := by
  exact ⟨by decide, by decide, by decide, by decide⟩

/-- Witness for the amended C1: the Z piece at row 0, column 0 of an empty
22 x 10 board fails the left-wall check at its first cell (which is also
above the top row) and testAndPlace answers LEFT. -/
theorem C1_witness :
    (0 : Int) + T_mo.c (T_mo.init .Z) 0 < 0 ∧
    (Board.testAndPlace (Board.init 22 10) (T_mo.init .Z) 0 0).1 = Board.LEFT :=
  ⟨by decide,
   C1_amended_left_precedence (Board.init 22 10) (T_mo.init .Z) 0 0 0
     (by omega) (fun j hj => absurd hj (by omega)) (by decide)⟩

/-- Claim C2: if testAndPlace answers OK the piece and position are
recorded as current; otherwise the board is exactly what it was; in both
cases the grid cells are untouched. -/
theorem C2_testAndPlace_no_partial_commit (b : Board) (p : T_mo)
    (nr nc : Int) :
    (Board.testAndPlace b p nr nc).2 =
      (if (Board.testAndPlace b p nr nc).1 = Board.OK
       then { b with _current := p, _row := nr, _col := nc } else b)
    ∧ (Board.testAndPlace b p nr nc).2.cells = b.cells := by
  unfold Board.testAndPlace
  cases htap : Board.tapLoop b p nr nc (List.range 4) with
  | none => simp
  | some res =>
    have hres : res ≠ Board.OK := tapLoop_ne_ok b p nr nc (List.range 4) res htap
    simp [hres]

/-- Claim C8: rotateLeft and rotateRight are mutually inverse on every
piece value, and both preserve the shape name.  (In this embedding both
are pure functions of the receiver, which is left unchanged.) -/
theorem C8_rotation_round_trip (p : T_mo) :
    (p.rotateLeft).rotateRight = p ∧ (p.rotateRight).rotateLeft = p ∧
    (p.rotateLeft).t_name = p.t_name ∧ (p.rotateRight).t_name = p.t_name := by
  refine ⟨?_, ?_, rfl, rfl⟩ <;>
  · cases p with
    | mk n cs =>
      simp only [T_mo.rotateLeft, T_mo.rotateRight, T_mo.init, List.map_map]
      congr 1
      induction cs with
      | nil => rfl
      | cons cr cs ih =>
        simp only [List.map_cons, Function.comp_apply, neg_neg, ih]

theorem foldl_setCell_cells_length (q : T_mo) (f g : Int × Int → Int) :
    ∀ (l : List (Int × Int)) (st : Board),
      (l.foldl (fun bb cr => Board.setCell bb (f cr) (g cr) q) st).cells.length
        = st.cells.length := by
  intro l
  induction l with
  | nil => intro st; rfl
  | cons cr l ih =>
    intro st
    rw [List.foldl_cons, ih]
    simp [Board.setCell]

/-- plant never changes the number of cells. -/
theorem plant_cells_length (b : Board) :
    (Board.plant b).cells.length = b.cells.length := by
  unfold Board.plant
  exact foldl_setCell_cells_length b._current
    (fun cr => cr.2 + b._row) (fun cr => cr.1 + b._col) b._current.coords b

/-- Claim C3: on any well-formed board, winnow removes exactly the rows
with no empty cell (full rows need not be contiguous), prepends that many
all-empty rows while keeping the remaining rows in order, and returns the
count removed; on a board with no full rows it returns 0 and the board is
unchanged. -/
theorem C3_winnow_removes_full_rows (b : Board) (hc : 0 < b.cols)
    (hlen : b.cells.length = b.rows * b.cols) :
    Board.winnow b =
      ({ b with cells := (List.replicate (((chunksOf b.cols b.cells).filter rowIsFull).length * b.cols) NO_T_mo ++ ((chunksOf b.cols b.cells).filter (fun r => !(rowIsFull r))).flatten) },
       ((chunksOf b.cols b.cells).filter rowIsFull).length)
    ∧ ((∀ r ∈ chunksOf b.cols b.cells, ¬ (rowIsFull r = true)) →
        Board.winnow b = (b, 0)) := by
  have hdvd : b.cols ∣ b.cells.length := ⟨b.rows, by rw [hlen]; ring⟩
  have hmem := chunksOf_mem_length hc b.cells hdvd
  have hflat := chunksOf_flatten hc b.cells
  have hwin := winnowCells_flatten hc (chunksOf b.cols b.cells) hmem
  rw [hflat] at hwin
  constructor
  · unfold Board.winnow
    rw [hwin]
  · intro hno
    have hfulnil : (chunksOf b.cols b.cells).filter rowIsFull = [] :=
      List.filter_eq_nil_iff.mpr hno
    have hkeep : (chunksOf b.cols b.cells).filter (fun r => !(rowIsFull r))
        = chunksOf b.cols b.cells := by
      apply List.filter_eq_self.mpr
      intro a ha
      simp only [Bool.not_eq_true']
      exact Bool.not_eq_true _ |>.mp (hno a ha) |> fun h => h
    unfold Board.winnow
    rw [hwin, hfulnil, hkeep, hflat]
    simp

/-- Claim C9: every board operation preserves the cell-list length
rows*cols: clear rebuilds it at that length, testAndPlace never touches
it, plant overwrites cells in place, and winnow removes and prepends the
same number of cells. -/
theorem C9_cells_length_invariant (b : Board) (p : T_mo) (nr nc : Int)
    (hsz : b.size = b.rows * b.cols) (hc : 0 < b.cols)
    (hlen : b.cells.length = b.rows * b.cols) :
    (Board.clear b).cells.length = b.rows * b.cols
    ∧ (Board.testAndPlace b p nr nc).2.cells = b.cells
    ∧ (Board.plant b).cells.length = b.rows * b.cols
    ∧ (Board.winnow b).1.cells.length = b.rows * b.cols := by
  refine ⟨?_, ?_, ?_, ?_⟩
  · simp [Board.clear, hsz]
  · unfold Board.testAndPlace
    cases htap : Board.tapLoop b p nr nc (List.range 4) <;> simp
  · rw [plant_cells_length, hlen]
  · have hdvd : b.cols ∣ b.cells.length := ⟨b.rows, by rw [hlen]; ring⟩
    have hmem := chunksOf_mem_length hc b.cells hdvd
    have hflat := chunksOf_flatten hc b.cells
    have hwin := winnowCells_flatten hc (chunksOf b.cols b.cells) hmem
    rw [hflat] at hwin
    have hrows : (chunksOf b.cols b.cells).length = b.rows :=
      chunksOf_length hc b.rows b.cells hlen
    have hkeepmem : ∀ r ∈ (chunksOf b.cols b.cells).filter
        (fun r => !(rowIsFull r)), r.length = b.cols := by
      intro r hr
      exact hmem r (List.mem_of_mem_filter hr)
    have hkeeplen := flatten_length_const
      ((chunksOf b.cols b.cells).filter (fun r => !(rowIsFull r))) hkeepmem
    have hpart := length_filter_partition rowIsFull (chunksOf b.cols b.cells)
    unfold Board.winnow
    rw [hwin]
    simp only [List.length_append, List.length_replicate, hkeeplen]
    rw [← Nat.add_mul, ← hrows]
    congr 1

theorem winnow_board_eq (b : Board) (cs : List T_mo) (n : Nat)
    (h : winnowCells b.cols b.cells = (cs, n)) :
    Board.winnow b = ({ b with cells := cs }, n) := by
  unfold Board.winnow
  rw [h]

/-- Claim C3 witness: on a 2 x 2 board whose bottom row is full, winnow
removes it, prepends one blank row, and returns 1. -/
theorem C3_witness :
    Board.winnow bTwo =
      ({ bTwo with cells := [NO_T_mo, NO_T_mo, NO_T_mo, T_mo.init .O] }, 1) := by
  have h := (C3_winnow_removes_full_rows bTwo (by decide) (by decide)).1
  have hch : chunksOf bTwo.cols bTwo.cells
      = [[NO_T_mo, T_mo.init .O], [T_mo.init .O, T_mo.init .O]] := by
    simp [chunksOf, bTwo]
  rw [h, hch]
  decide

/-- Claim C9 witness at the 2 x 2 board. -/
theorem C9_witness :
    bTwo.size = bTwo.rows * bTwo.cols ∧ 0 < bTwo.cols ∧
    bTwo.cells.length = bTwo.rows * bTwo.cols ∧
    (Board.clear bTwo).cells.length = bTwo.rows * bTwo.cols ∧
    (Board.testAndPlace bTwo (T_mo.init .O) 0 0).2.cells = bTwo.cells ∧
    (Board.plant bTwo).cells.length = bTwo.rows * bTwo.cols ∧
    (Board.winnow bTwo).1.cells.length = bTwo.rows * bTwo.cols := by
  have h := C9_cells_length_invariant bTwo (T_mo.init .O) 0 0
    (by decide) (by decide) (by decide)
  exact ⟨by decide, by decide, by decide, h.1, h.2.1, h.2.2.1, h.2.2.2⟩

/-- Claim C7: on a 22 x 10 board in which exactly rows 3 and 7 are full,
winnow removes those two rows, keeps every other row in order shifted
down by the two blank rows prepended at the top, and returns 2. -/
theorem C7_winnow_rows_three_seven (b : Board)
    (r0 r1 r2 r3 r4 r5 r6 r7 r8 r9 r10 r11 r12 r13 r14 r15 r16 r17 r18 r19 r20 r21 : List T_mo)
    (hrows : b.rows = 22) (hcols : b.cols = 10)
    (hcells : b.cells =
      ([r0, r1, r2, r3, r4, r5, r6, r7, r8, r9, r10, r11, r12, r13, r14, r15,
        r16, r17, r18, r19, r20, r21] : List (List T_mo)).flatten)
    (hl0 : r0.length = 10) (hl1 : r1.length = 10) (hl2 : r2.length = 10)
    (hl3 : r3.length = 10) (hl4 : r4.length = 10) (hl5 : r5.length = 10)
    (hl6 : r6.length = 10) (hl7 : r7.length = 10) (hl8 : r8.length = 10)
    (hl9 : r9.length = 10) (hl10 : r10.length = 10) (hl11 : r11.length = 10)
    (hl12 : r12.length = 10) (hl13 : r13.length = 10) (hl14 : r14.length = 10)
    (hl15 : r15.length = 10) (hl16 : r16.length = 10) (hl17 : r17.length = 10)
    (hl18 : r18.length = 10) (hl19 : r19.length = 10) (hl20 : r20.length = 10)
    (hl21 : r21.length = 10)
    (he0 : r0.contains NO_T_mo = true) (he1 : r1.contains NO_T_mo = true)
    (he2 : r2.contains NO_T_mo = true) (hf3 : r3.contains NO_T_mo = false)
    (he4 : r4.contains NO_T_mo = true) (he5 : r5.contains NO_T_mo = true)
    (he6 : r6.contains NO_T_mo = true) (hf7 : r7.contains NO_T_mo = false)
    (he8 : r8.contains NO_T_mo = true) (he9 : r9.contains NO_T_mo = true)
    (he10 : r10.contains NO_T_mo = true) (he11 : r11.contains NO_T_mo = true)
    (he12 : r12.contains NO_T_mo = true) (he13 : r13.contains NO_T_mo = true)
    (he14 : r14.contains NO_T_mo = true) (he15 : r15.contains NO_T_mo = true)
    (he16 : r16.contains NO_T_mo = true) (he17 : r17.contains NO_T_mo = true)
    (he18 : r18.contains NO_T_mo = true) (he19 : r19.contains NO_T_mo = true)
    (he20 : r20.contains NO_T_mo = true) (he21 : r21.contains NO_T_mo = true) :
    Board.winnow b =
      ({ b with cells := (List.replicate 20 NO_T_mo ++ ([r0, r1, r2, r4, r5, r6, r8, r9, r10, r11, r12, r13, r14, r15, r16, r17, r18, r19, r20, r21] : List (List T_mo)).flatten) },
       2) := by
  have hmem : ∀ r ∈ ([r0, r1, r2, r3, r4, r5, r6, r7, r8, r9, r10, r11, r12,
      r13, r14, r15, r16, r17, r18, r19, r20, r21] : List (List T_mo)),
      r.length = 10 := by
    intro r hr
    fin_cases hr <;> assumption
  have hwin := @winnowCells_flatten 10 (by omega)
    ([r0, r1, r2, r3, r4, r5, r6, r7, r8, r9, r10, r11, r12, r13, r14, r15,
      r16, r17, r18, r19, r20, r21] : List (List T_mo)) hmem
  have hm0 : NO_T_mo ∈ r0 := by simpa using he0
  have hm1 : NO_T_mo ∈ r1 := by simpa using he1
  have hm2 : NO_T_mo ∈ r2 := by simpa using he2
  have hm3 : ¬ NO_T_mo ∈ r3 := by simpa using hf3
  have hm4 : NO_T_mo ∈ r4 := by simpa using he4
  have hm5 : NO_T_mo ∈ r5 := by simpa using he5
  have hm6 : NO_T_mo ∈ r6 := by simpa using he6
  have hm7 : ¬ NO_T_mo ∈ r7 := by simpa using hf7
  have hm8 : NO_T_mo ∈ r8 := by simpa using he8
  have hm9 : NO_T_mo ∈ r9 := by simpa using he9
  have hm10 : NO_T_mo ∈ r10 := by simpa using he10
  have hm11 : NO_T_mo ∈ r11 := by simpa using he11
  have hm12 : NO_T_mo ∈ r12 := by simpa using he12
  have hm13 : NO_T_mo ∈ r13 := by simpa using he13
  have hm14 : NO_T_mo ∈ r14 := by simpa using he14
  have hm15 : NO_T_mo ∈ r15 := by simpa using he15
  have hm16 : NO_T_mo ∈ r16 := by simpa using he16
  have hm17 : NO_T_mo ∈ r17 := by simpa using he17
  have hm18 : NO_T_mo ∈ r18 := by simpa using he18
  have hm19 : NO_T_mo ∈ r19 := by simpa using he19
  have hm20 : NO_T_mo ∈ r20 := by simpa using he20
  have hm21 : NO_T_mo ∈ r21 := by simpa using he21
  have hfull : ([r0, r1, r2, r3, r4, r5, r6, r7, r8, r9, r10, r11, r12, r13,
      r14, r15, r16, r17, r18, r19, r20, r21] : List (List T_mo)).filter
      rowIsFull = [r3, r7] := by
    simp [rowIsFull, List.filter_cons, hm0, hm1, hm2, hm3, hm4, hm5, hm6, hm7,
      hm8, hm9, hm10, hm11, hm12, hm13, hm14, hm15, hm16, hm17, hm18, hm19,
      hm20, hm21]
  have hkeep : ([r0, r1, r2, r3, r4, r5, r6, r7, r8, r9, r10, r11, r12, r13,
      r14, r15, r16, r17, r18, r19, r20, r21] : List (List T_mo)).filter
      (fun r => !(rowIsFull r))
      = [r0, r1, r2, r4, r5, r6, r8, r9, r10, r11, r12, r13, r14, r15, r16,
         r17, r18, r19, r20, r21] := by
    simp [rowIsFull, List.filter_cons, hm0, hm1, hm2, hm3, hm4, hm5, hm6, hm7,
      hm8, hm9, hm10, hm11, hm12, hm13, hm14, hm15, hm16, hm17, hm18, hm19,
      hm20, hm21]
  rw [hfull, hkeep] at hwin
  apply winnow_board_eq
  rw [hcells, hcols, hwin]
  norm_num

/-- Claim C7 witness: the concrete 22 x 10 board bRows37. -/
theorem C7_witness :
    Board.winnow bRows37 =
      ({ bRows37 with cells := (List.replicate 20 NO_T_mo ++ ([rowEmptyish, rowEmptyish, rowEmptyish, rowEmptyish, rowEmptyish, rowEmptyish, rowEmptyish, rowEmptyish, rowEmptyish, rowEmptyish, rowEmptyish, rowEmptyish, rowEmptyish, rowEmptyish, rowEmptyish, rowEmptyish, rowEmptyish, rowEmptyish, rowEmptyish, rowEmptyish] : List (List T_mo)).flatten) },
       2) :=
  C7_winnow_rows_three_seven bRows37 rowEmptyish rowEmptyish rowEmptyish
    rowFullO rowEmptyish rowEmptyish rowEmptyish rowFullO rowEmptyish
    rowEmptyish rowEmptyish rowEmptyish rowEmptyish rowEmptyish rowEmptyish
    rowEmptyish rowEmptyish rowEmptyish rowEmptyish rowEmptyish rowEmptyish
    rowEmptyish rfl rfl rfl (by decide) (by decide) (by decide) (by decide)
    (by decide) (by decide) (by decide) (by decide) (by decide) (by decide)
    (by decide) (by decide) (by decide) (by decide) (by decide) (by decide)
    (by decide) (by decide) (by decide) (by decide) (by decide) (by decide)
    (by decide) (by decide) (by decide) (by decide) (by decide) (by decide)
    (by decide) (by decide) (by decide) (by decide) (by decide) (by decide)
    (by decide) (by decide) (by decide) (by decide) (by decide) (by decide)
    (by decide) (by decide) (by decide) (by decide)

theorem timeStep_level_one :
    max 20 (Int.toNat (Int.floor ((Game.StartingSpeed : ℚ) * Game.TimeFactor ^ 1)))
      = 656 := by
  rw [show Int.floor ((Game.StartingSpeed : ℚ) * Game.TimeFactor ^ 1) = 656 by
    norm_num [Game.StartingSpeed, Game.TimeFactor]]
  decide

/-- When the piece moves down, or when it lands without filling any row,
oneLineDown leaves the score alone. -/
theorem oneLineDown_score_unchanged (gs : GameState)
    (h : (Game.oneLineDown gs).1 = true ∨
      (Board.winnow (Board.plant gs.board)).2 = 0) :
    (Game.oneLineDown gs).2.current_score = gs.current_score := by
  unfold Game.oneLineDown
  by_cases hok : (Board.testAndPlace gs.board (Board.currentPiece gs.board)
      (Board.currentRow gs.board + 1) (Board.currentColumn gs.board)).1 = Board.OK
  · simp [hok]
  · simp only [hok, if_false]
    rcases h with hmv | hn0
    · unfold Game.oneLineDown at hmv
      simp only [hok, if_false] at hmv
      by_cases hn : (Board.winnow (Board.plant gs.board)).2 ≠ 0 <;>
        simp [hn] at hmv
    · simp [hn0]

/-- Claim C5 (amended): when a landing fills n rows (1 <= n <= 4) the
engine increments the line count by n, recomputes level = lines / 10
FIRST, then awards score += (1 + new level) * table(n) with table =
(100,300,500,800), and recomputes the interval max(20, trunc(750 *
0.875 ^ new level)).  In particular the first line ever cleared adds
exactly 100 with level still 0, and when the total reaches 10 the level
becomes 1 and the interval becomes max(20, trunc(750 * 0.875)) = 656. -/
theorem C5_amended_scoring (gs : GameState)
    (hfail : (Board.testAndPlace gs.board (Board.currentPiece gs.board)
        (Board.currentRow gs.board + 1) (Board.currentColumn gs.board)).1
      ≠ Board.OK)
    (hn1 : 1 ≤ (Board.winnow (Board.plant gs.board)).2)
    (hn4 : (Board.winnow (Board.plant gs.board)).2 ≤ 4) :
    Game.oneLineDown gs =
      (false,
       { gs with
         board := (Board.winnow (Board.plant gs.board)).1,
         waitForNextTimer := true,
         lines_cleared :=
           gs.lines_cleared + (Board.winnow (Board.plant gs.board)).2,
         current_level :=
           (gs.lines_cleared + (Board.winnow (Board.plant gs.board)).2)
             / Game.LinesPerLevel,
         current_score :=
           gs.current_score +
             (1 + (gs.lines_cleared + (Board.winnow (Board.plant gs.board)).2)
                 / Game.LinesPerLevel) *
               Game.scoreTable.getD ((Board.winnow (Board.plant gs.board)).2 - 1) 0,
         timeStep :=
           max 20 (Int.toNat (Int.floor ((Game.StartingSpeed : ℚ) *
             Game.TimeFactor ^ ((gs.lines_cleared +
               (Board.winnow (Board.plant gs.board)).2) / Game.LinesPerLevel)))) })
    ∧ (gs.lines_cleared = 0 ∧ (Board.winnow (Board.plant gs.board)).2 = 1 →
        (Game.oneLineDown gs).2.current_score = gs.current_score + 100 ∧
        (Game.oneLineDown gs).2.current_level = 0)
    ∧ (gs.lines_cleared + (Board.winnow (Board.plant gs.board)).2 = 10 →
        (Game.oneLineDown gs).2.current_level = 1 ∧
        (Game.oneLineDown gs).2.timeStep = 656) := by
  have hmain : Game.oneLineDown gs =
      (false,
       { gs with
         board := (Board.winnow (Board.plant gs.board)).1,
         waitForNextTimer := true,
         lines_cleared :=
           gs.lines_cleared + (Board.winnow (Board.plant gs.board)).2,
         current_level :=
           (gs.lines_cleared + (Board.winnow (Board.plant gs.board)).2)
             / Game.LinesPerLevel,
         current_score :=
           gs.current_score +
             (1 + (gs.lines_cleared + (Board.winnow (Board.plant gs.board)).2)
                 / Game.LinesPerLevel) *
               Game.scoreTable.getD ((Board.winnow (Board.plant gs.board)).2 - 1) 0,
         timeStep :=
           max 20 (Int.toNat (Int.floor ((Game.StartingSpeed : ℚ) *
             Game.TimeFactor ^ ((gs.lines_cleared +
               (Board.winnow (Board.plant gs.board)).2) / Game.LinesPerLevel)))) }) := by
    unfold Game.oneLineDown
    rw [if_neg hfail, if_pos (by omega)]
  refine ⟨hmain, ?_, ?_⟩
  · rintro ⟨hl0, hn⟩
    rw [hmain]
    simp only [hl0, hn, Game.LinesPerLevel, Game.scoreTable]
    norm_num
  · intro hten
    rw [hmain]
    constructor
    · simp [hten, Game.LinesPerLevel]
    · show max 20 (Int.toNat (Int.floor ((Game.StartingSpeed : ℚ) *
        Game.TimeFactor ^ ((gs.lines_cleared +
          (Board.winnow (Board.plant gs.board)).2) / Game.LinesPerLevel))))
        = 656
      rw [hten, show (10 : Nat) / Game.LinesPerLevel = 1 from rfl]
      exact timeStep_level_one

/-- Claim C5 counterexample: at 9 lines cleared and level 0, landing a
piece that fills one row yields score 200 = (1 + 1) * 100 because the
level is recomputed to 1 before the award; the claim order (award with
the old level first) predicts 100. -/
theorem C5_counterexample :
    gsNine.lines_cleared = 9 ∧ gsNine.current_level = 0 ∧
    gsNine.current_score = 0 ∧
    (Board.winnow (Board.plant gsNine.board)).2 = 1 ∧
    (Game.oneLineDown gsNine).2.current_score = 200 ∧
    gsNine.current_score + (1 + gsNine.current_level) * 100 = 100 ∧
    (200 : Nat) ≠ 100 := by
  exact ⟨by decide, by decide, by decide, by decide, by decide, by decide,
    by decide⟩

/-- Claim C5 witness: the amended statement evaluated on the first line
ever cleared (gsZero) and on the tenth line (gsNine). -/
theorem C5_witness :
    ((Game.oneLineDown gsZero).2.current_score = gsZero.current_score + 100 ∧
     (Game.oneLineDown gsZero).2.current_level = 0) ∧
    ((Game.oneLineDown gsNine).2.current_level = 1 ∧
     (Game.oneLineDown gsNine).2.timeStep = 656) := by
  have hz := C5_amended_scoring gsZero (by decide) (by decide) (by decide)
  have hn := C5_amended_scoring gsNine (by decide) (by decide) (by decide)
  exact ⟨hz.2.1 ⟨by decide, by decide⟩, hn.2.2 (by decide)⟩

/-- Claim C10 (amended): a soft-drop command processed while the game is
running with an active piece adds exactly 1 to whatever score
oneLineDown produced; when the move succeeds, or the piece locks without
clearing a row, the total increase is exactly 1.  (When the lock clears
rows, the line award is added as well, so the total exceeds 1.) -/
theorem C10_amended_soft_drop (gs : GameState) (hs : gs.isStarted = true)
    (ha : Board.currentPiece gs.board ≠ NO_T_mo) :
    (Game.softDropKey gs).current_score
      = (Game.oneLineDown gs).2.current_score + 1
    ∧ ((Game.oneLineDown gs).1 = true ∨
        (Board.winnow (Board.plant gs.board)).2 = 0 →
        (Game.softDropKey gs).current_score = gs.current_score + 1) := by
  have hkey : Game.softDropKey gs =
      { (Game.oneLineDown gs).2 with
        current_score := (Game.oneLineDown gs).2.current_score + 1 } := by
    unfold Game.softDropKey
    rw [if_pos ⟨hs, ha⟩]
  constructor
  · rw [hkey]
  · intro h
    rw [hkey]
    simp only [oneLineDown_score_unchanged gs h]

/-- Claim C10 counterexample: a soft drop that locks the piece and clears
one row increases the score by 101 (the +1 plus the 100-point award), not
by exactly 1. -/
theorem C10_counterexample :
    gsZero.isStarted = true ∧ Board.currentPiece gsZero.board ≠ NO_T_mo ∧
    (Game.softDropKey gsZero).current_score = gsZero.current_score + 101 ∧
    gsZero.current_score + 101 ≠ gsZero.current_score + 1 := by
  exact ⟨by decide, by decide, by decide, by decide⟩

/-- Claim C10 witness: a soft drop whose downward move succeeds adds
exactly 1. -/
theorem C10_witness :
    gsFree.isStarted = true ∧ Board.currentPiece gsFree.board ≠ NO_T_mo ∧
    (Game.softDropKey gsFree).current_score = gsFree.current_score + 1 := by
  refine ⟨by decide, by decide, ?_⟩
  exact (C10_amended_soft_drop gsFree (by decide) (by decide)).2
    (Or.inl (by decide))

theorem nextPiece_board (bags : Nat → List T_mo) (gs : GameState) :
    (Game.nextPiece bags gs).2.board = gs.board := rfl

theorem nextPiece_held (bags : Nat → List T_mo) (gs : GameState) :
    (Game.nextPiece bags gs).2.held_display = gs.held_display := rfl

/-- Claim C6 (amended): when the swapped-in piece cannot be placed at the
current piece position the hold is rejected: the board (cells and current
piece) and the held display are unchanged, and when a piece was already
held nothing at all changes; but when no piece was held, the rejected
command has already advanced the preview queue and bag by one nextPiece
call (the drawn piece is discarded). -/
theorem C6_amended_hold (bags : Nat → List T_mo) (gs : GameState)
    (hfail : (Board.testAndPlace gs.board
        (if Board.currentPiece gs.held_display = NO_T_mo
         then (Game.nextPiece bags gs).1
         else Board.currentPiece gs.held_display)
        (Board.currentRow gs.board) (Board.currentColumn gs.board)).1
      ≠ Board.OK) :
    Game.holdCurrentPiece bags gs =
      (if Board.currentPiece gs.held_display = NO_T_mo
       then (Game.nextPiece bags gs).2 else gs)
    ∧ (Game.holdCurrentPiece bags gs).board = gs.board
    ∧ (Game.holdCurrentPiece bags gs).held_display = gs.held_display
    ∧ (Board.currentPiece gs.held_display ≠ NO_T_mo →
        Game.holdCurrentPiece bags gs = gs) := by
  by_cases hheld : Board.currentPiece gs.held_display = NO_T_mo
  · rw [if_pos hheld] at hfail
    have hmain : Game.holdCurrentPiece bags gs = (Game.nextPiece bags gs).2 := by
      unfold Game.holdCurrentPiece
      simp only [hheld, if_true]
      rw [if_neg (by exact hfail)]
    refine ⟨by rw [hmain, if_pos hheld], ?_, ?_, ?_⟩
    · rw [hmain, nextPiece_board]
    · rw [hmain, nextPiece_held]
    · intro hcon
      exact absurd hheld hcon
  · rw [if_neg hheld] at hfail
    have hmain : Game.holdCurrentPiece bags gs = gs := by
      unfold Game.holdCurrentPiece
      simp only [hheld, if_false]
      rw [if_neg (by exact hfail)]
    refine ⟨by rw [hmain, if_neg hheld], by rw [hmain], by rw [hmain],
      fun _ => hmain⟩

/-- Claim C6 counterexample: with no piece held and a drawn piece that
does not fit, the hold is rejected, yet the preview queue has advanced
(head popped, one piece drawn from the bag appended) and the bag lost a
piece - not the unchanged state the claim requires. -/
theorem C6_counterexample :
    Board.currentPiece gsHold.held_display = NO_T_mo ∧
    (Board.testAndPlace gsHold.board (Game.nextPiece bagsId gsHold).1
      (Board.currentRow gsHold.board) (Board.currentColumn gsHold.board)).1
      = Board.TOUCH ∧
    (Game.holdCurrentPiece bagsId gsHold).board = gsHold.board ∧
    (Game.holdCurrentPiece bagsId gsHold).preview_list.map T_mo.t_name
      = [.O, .O, .O, .O, .S] ∧
    gsHold.preview_list.map T_mo.t_name = [.I, .O, .O, .O, .O] ∧
    (Game.holdCurrentPiece bagsId gsHold).preview_list ≠ gsHold.preview_list ∧
    (Game.holdCurrentPiece bagsId gsHold).bag_of_pieces ≠ gsHold.bag_of_pieces := by
  exact ⟨by decide, by decide, by decide, by decide, by decide, by decide,
    by decide⟩

/-- Claim C6 witness: the amended statement evaluated at the concrete
rejected hold gsHold. -/
theorem C6_witness :
    Game.holdCurrentPiece bagsId gsHold = (Game.nextPiece bagsId gsHold).2 ∧
    (Game.holdCurrentPiece bagsId gsHold).board = gsHold.board ∧
    (Game.holdCurrentPiece bagsId gsHold).held_display = gsHold.held_display := by
  have h := C6_amended_hold bagsId gsHold (by decide)
  refine ⟨?_, h.2.1, h.2.2.1⟩
  have h1 := h.1
  rw [if_pos (by decide)] at h1
  exact h1

theorem reverse_getLastD {α : Type} (d : α) :
    ∀ (l : List α), l ≠ [] → l.reverse = l.getLastD d :: l.dropLast.reverse := by
  intro l
  induction l with
  | nil => intro h; exact absurd rfl h
  | cons a l ih =>
    intro _
    cases l with
    | nil => rfl
    | cons b l2 =>
      rw [List.reverse_cons, ih (by simp), List.dropLast_cons₂,
        List.reverse_cons]
      simp [List.getLastD_cons]

theorem bagStream_one (bags : Nat → List T_mo) :
    bagStream bags 1 = windowZero bags := by
  simp [bagStream]

theorem bagStream_succ (bags : Nat → List T_mo) (k : Nat) (hk : 1 ≤ k) :
    bagStream bags (k + 1) = bagStream bags k ++ (bags k).reverse := by
  unfold bagStream
  rw [show k + 1 - 1 = (k - 1) + 1 by omega, List.range_succ, List.map_append,
    List.flatten_append]
  simp only [List.map_cons, List.map_nil, List.flatten_cons, List.flatten_nil,
    List.append_nil, List.append_assoc]
  rw [show k - 1 + 1 = k by omega]

theorem nextPiece_fields_empty (bags : Nat → List T_mo) (gs : GameState)
    (hb : gs.bag_of_pieces.isEmpty = true) :
    (Game.nextPiece bags gs).1 = gs.preview_list.headD NO_T_mo
    ∧ (Game.nextPiece bags gs).2.preview_list
        = gs.preview_list.tail ++ [(bags gs.bag_index).getLastD NO_T_mo]
    ∧ (Game.nextPiece bags gs).2.bag_of_pieces = (bags gs.bag_index).dropLast
    ∧ (Game.nextPiece bags gs).2.bag_index = gs.bag_index + 1 := by
  refine ⟨rfl, ?_, ?_, ?_⟩ <;> simp [Game.nextPiece, hb]

theorem nextPiece_fields_nonempty (bags : Nat → List T_mo) (gs : GameState)
    (hb : gs.bag_of_pieces.isEmpty = false) :
    (Game.nextPiece bags gs).1 = gs.preview_list.headD NO_T_mo
    ∧ (Game.nextPiece bags gs).2.preview_list
        = gs.preview_list.tail ++ [gs.bag_of_pieces.getLastD NO_T_mo]
    ∧ (Game.nextPiece bags gs).2.bag_of_pieces = gs.bag_of_pieces.dropLast
    ∧ (Game.nextPiece bags gs).2.bag_index = gs.bag_index := by
  refine ⟨rfl, ?_, ?_, ?_⟩ <;> simp [Game.nextPiece, hb]

/-- The supply invariant: after n nextPiece calls on a freshly cleared
game the preview still holds 5 pieces, the deliveries so far followed by
the preview and the reversed bag spell out the bag stream, and the
bookkeeping counts agree. -/
theorem supply_invariant (bags : Nat → List T_mo)
    (hlen : ∀ i, (bags i).length = 7) :
    ∀ n,
      (Game.supplyAfter bags n).preview_list.length = 5
      ∧ 1 ≤ (Game.supplyAfter bags n).bag_index
      ∧ n + 5 + (Game.supplyAfter bags n).bag_of_pieces.length
          = 7 * (Game.supplyAfter bags n).bag_index
      ∧ Game.delivered bags n ++ (Game.supplyAfter bags n).preview_list
          ++ (Game.supplyAfter bags n).bag_of_pieces.reverse
        = bagStream bags (Game.supplyAfter bags n).bag_index
      ∧ (Game.delivered bags n).length = n := by
  intro n
  induction n with
  | zero =>
    refine ⟨?_, ?_, ?_, ?_, rfl⟩
    · show ((bags 0).take 5).length = 5
      rw [List.length_take, hlen 0]
      decide
    · show 1 ≤ 1
      exact le_refl 1
    · show 0 + 5 + ((bags 0).drop 5).length = 7 * 1
      rw [List.length_drop, hlen 0]
    · show ([] : List T_mo) ++ (bags 0).take 5 ++ ((bags 0).drop 5).reverse
        = bagStream bags 1
      rw [bagStream_one]
      unfold windowZero
      rw [List.nil_append]
  | succ n ih =>
    obtain ⟨ih1, ih2, ih3, ih4, ih5⟩ := ih
    obtain ⟨p, t, hpt⟩ : ∃ p t, (Game.supplyAfter bags n).preview_list = p :: t := by
      cases hp : (Game.supplyAfter bags n).preview_list with
      | nil => rw [hp] at ih1; simp at ih1
      | cons p t => exact ⟨p, t, rfl⟩
    have ht4 : t.length = 4 := by
      have h := ih1
      rw [hpt] at h
      simpa using h
    have hsupp : Game.supplyAfter bags (n + 1)
        = (Game.nextPiece bags (Game.supplyAfter bags n)).2 := rfl
    have hdel : Game.delivered bags (n + 1)
        = Game.delivered bags n
          ++ [(Game.nextPiece bags (Game.supplyAfter bags n)).1] := rfl
    by_cases hbag : (Game.supplyAfter bags n).bag_of_pieces.isEmpty = true
    · obtain ⟨hf1, hf2, hf3, hf4⟩ :=
        nextPiece_fields_empty bags (Game.supplyAfter bags n) hbag
      have hbnil : (Game.supplyAfter bags n).bag_of_pieces = [] := by
        simpa [List.isEmpty_iff] using hbag
      have hk := ih2
      have hknz : (bags (Game.supplyAfter bags n).bag_index) ≠ [] := by
        intro h
        have := hlen (Game.supplyAfter bags n).bag_index
        rw [h] at this
        simp at this
      refine ⟨?_, ?_, ?_, ?_, ?_⟩
      · rw [hsupp, hf2, hpt]
        simp [ht4]
      · rw [hsupp, hf4]
        omega
      · rw [hsupp, hf3, hf4, List.length_dropLast,
          hlen (Game.supplyAfter bags n).bag_index]
        rw [hbnil] at ih3
        simp only [List.length_nil] at ih3
        omega
      · rw [hsupp, hdel, hf1, hf2, hf3, hf4, hpt]
        rw [bagStream_succ bags (Game.supplyAfter bags n).bag_index ih2]
        have hC : Game.delivered bags n ++ (p :: t)
            = bagStream bags (Game.supplyAfter bags n).bag_index := by
          have h4 := ih4
          rw [hbnil, hpt] at h4
          simpa using h4
        rw [← hC,
          reverse_getLastD NO_T_mo (bags (Game.supplyAfter bags n).bag_index) hknz]
        simp
      · rw [hdel, List.length_append, ih5]
        rfl
    · have hbf : (Game.supplyAfter bags n).bag_of_pieces.isEmpty = false := by
        simpa using hbag
      obtain ⟨hf1, hf2, hf3, hf4⟩ :=
        nextPiece_fields_nonempty bags (Game.supplyAfter bags n) hbf
      have hbne : (Game.supplyAfter bags n).bag_of_pieces ≠ [] := by
        intro h
        rw [h] at hbf
        simp at hbf
      have hbpos : 0 < (Game.supplyAfter bags n).bag_of_pieces.length :=
        List.length_pos.mpr hbne
      refine ⟨?_, ?_, ?_, ?_, ?_⟩
      · rw [hsupp, hf2, hpt]
        simp [ht4]
      · rw [hsupp, hf4]
        exact ih2
      · rw [hsupp, hf3, hf4, List.length_dropLast]
        omega
      · rw [hsupp, hdel, hf1, hf2, hf3, hf4, hpt]
        have h4 := ih4
        rw [hpt,
          reverse_getLastD NO_T_mo (Game.supplyAfter bags n).bag_of_pieces hbne]
          at h4
        rw [← h4]
        simp
      · rw [hdel, List.length_append, ih5]
        rfl

theorem flatten_block_extract {α : Type} :
    ∀ (blocks : List (List α)) (m : Nat), (∀ b ∈ blocks, b.length = 7) →
      m < blocks.length →
      ((blocks.flatten).take (7 * m + 7)).drop (7 * m) = blocks.getD m [] := by
  intro blocks
  induction blocks with
  | nil =>
    intro m _ hm
    simp at hm
  | cons b rest ih =>
    intro m hblen hm
    cases m with
    | zero =>
      simp only [Nat.mul_zero, Nat.zero_add, List.drop_zero, List.flatten_cons]
      rw [show (7 : Nat) = b.length from (hblen b (by simp)).symm,
        List.take_left, List.getD_cons_zero]
    | succ m =>
      have hb : b.length = 7 := hblen b (by simp)
      simp only [List.flatten_cons]
      rw [show 7 * (m + 1) + 7 = b.length + (7 * m + 7) by rw [hb]; ring,
        List.take_append,
        show 7 * (m + 1) = b.length + 7 * m by rw [hb]; ring,
        List.drop_append,
        ih m (fun x hx => hblen x (by simp [hx])) (by simpa using hm),
        List.getD_cons_succ]

theorem delivered_prefix (bags : Nat → List T_mo)
    (hlen : ∀ i, (bags i).length = 7) (n : Nat) :
    Game.delivered bags n
      = (bagStream bags ((Game.supplyAfter bags n).bag_index)).take n := by
  obtain ⟨ih1, ih2, ih3, ih4, ih5⟩ := supply_invariant bags hlen n
  have htl := List.take_left (Game.delivered bags n)
    ((Game.supplyAfter bags n).preview_list
      ++ (Game.supplyAfter bags n).bag_of_pieces.reverse)
  rw [ih5] at htl
  conv_rhs => rw [← ih4, List.append_assoc]
  exact htl.symm

/-- The m-th window of seven consecutive deliveries, aligned to a bag
boundary: the first window is the bag-0 stream prefix; every later
window is exactly bag m, delivered in reverse. -/
theorem delivered_window (bags : Nat → List T_mo)
    (hlen : ∀ i, (bags i).length = 7) (m : Nat) :
    (Game.delivered bags (7 * m + 7)).drop (7 * m)
      = if m = 0 then windowZero bags else (bags m).reverse := by
  obtain ⟨ih1, ih2, ih3, ih4, ih5⟩ := supply_invariant bags hlen (7 * m + 7)
  have hKm : m + 2 ≤ (Game.supplyAfter bags (7 * m + 7)).bag_index := by omega
  have hpref := delivered_prefix bags hlen (7 * m + 7)
  rw [hpref]
  have hblocks : bagStream bags ((Game.supplyAfter bags (7 * m + 7)).bag_index)
      = (windowZero bags ::
          (List.range ((Game.supplyAfter bags (7 * m + 7)).bag_index - 1)).map
            (fun i => (bags (i + 1)).reverse)).flatten := by
    simp [bagStream]
  rw [hblocks]
  have hlens : ∀ b ∈ (windowZero bags ::
      (List.range ((Game.supplyAfter bags (7 * m + 7)).bag_index - 1)).map
        (fun i => (bags (i + 1)).reverse)), b.length = 7 := by
    intro b hb
    rcases List.mem_cons.mp hb with h | h
    · rw [h]
      unfold windowZero
      rw [List.length_append, List.length_take, List.length_reverse,
        List.length_drop, hlen 0]
      decide
    · obtain ⟨i, hi, rfl⟩ := List.mem_map.mp h
      rw [List.length_reverse, hlen]
  have hmlt : m < (windowZero bags ::
      (List.range ((Game.supplyAfter bags (7 * m + 7)).bag_index - 1)).map
        (fun i => (bags (i + 1)).reverse)).length := by
    simp only [List.length_cons, List.length_map, List.length_range]
    omega
  rw [flatten_block_extract _ m hlens hmlt]
  cases m with
  | zero => simp
  | succ j =>
    simp only [List.getD_cons_succ]
    have hj : j < (Game.supplyAfter bags (7 * (j + 1) + 7)).bag_index - 1 := by
      omega
    rw [List.getD_eq_getElem _ _ (by simpa using hj)]
    simp

theorem windowZero_perm (bags : Nat → List T_mo) :
    (windowZero bags).Perm (bags 0) := by
  unfold windowZero
  have h1 : (((bags 0).drop 5).reverse).Perm ((bags 0).drop 5) :=
    List.reverse_perm _
  have h2 := List.Perm.append_left ((bags 0).take 5) h1
  simpa [List.take_append_drop] using h2

/-- Any permutation of the unshuffled bag carries each of the seven
non-empty kinds exactly once. -/
theorem perm_base_counts (l : List T_mo) (h : l.Perm Game.make_bag_base) :
    l.length = 7 ∧ ∀ s, s ≠ T_ShapeNames.N →
      (l.map T_mo.t_name).count s = 1 := by
  constructor
  · rw [h.length_eq]
    rfl
  · intro s hs
    have hmap := h.map T_mo.t_name
    rw [hmap.count_eq]
    have hbase : Game.make_bag_base.map T_mo.t_name
        = [.O, .I, .T, .L, .J, .S, .Z] := by decide
    rw [hbase]
    cases s
    · exact absurd rfl hs
    all_goals decide

/-- Claim C4: every refill of the bag (modelled as a permutation of the
seven freshly created pieces of make_bag) carries each of the 7 non-empty
kinds exactly once, and in the stream of pieces the game actually
delivers through the length-5 preview FIFO, every window of 7
consecutive deliveries aligned to a bag boundary has length 7 and
carries each of the 7 kinds exactly once. -/
theorem C4_bag_and_windows (bags : Nat → List T_mo)
    (hperm : ∀ i, (bags i).Perm Game.make_bag_base) :
    (∀ i s, s ≠ T_ShapeNames.N → ((bags i).map T_mo.t_name).count s = 1)
    ∧ (∀ m,
        ((Game.delivered bags (7 * m + 7)).drop (7 * m)).length = 7
        ∧ ∀ s, s ≠ T_ShapeNames.N →
            (((Game.delivered bags (7 * m + 7)).drop (7 * m)).map
              T_mo.t_name).count s = 1) := by
  have hlen : ∀ i, (bags i).length = 7 :=
    fun i => (perm_base_counts _ (hperm i)).1
  constructor
  · intro i s hs
    exact (perm_base_counts _ (hperm i)).2 s hs
  · intro m
    have hw := delivered_window bags hlen m
    have hwperm : ((Game.delivered bags (7 * m + 7)).drop (7 * m)).Perm
        Game.make_bag_base := by
      rw [hw]
      cases m with
      | zero =>
        rw [if_pos rfl]
        exact (windowZero_perm bags).trans (hperm 0)
      | succ j =>
        rw [if_neg (Nat.succ_ne_zero j)]
        exact (List.reverse_perm (bags (j + 1))).trans (hperm (j + 1))
    obtain ⟨hl, hcnt⟩ := perm_base_counts _ hwperm
    exact ⟨hl, hcnt⟩

/-- Claim C4 witness: the unshuffled oracle, bag 0 and the first aligned
window, checked for the O kind. -/
theorem C4_witness :
    ((bagsId 0).map T_mo.t_name).count T_ShapeNames.O = 1 ∧
    ((Game.delivered bagsId (7 * 0 + 7)).drop (7 * 0)).length = 7 ∧
    (((Game.delivered bagsId (7 * 0 + 7)).drop (7 * 0)).map T_mo.t_name).count
      T_ShapeNames.O = 1 := by
  have h := C4_bag_and_windows bagsId (fun i => List.Perm.refl _)
  exact ⟨h.1 0 T_ShapeNames.O (by decide), (h.2 0).1,
    (h.2 0).2 T_ShapeNames.O (by decide)⟩
